import Mathlib

/-!
Shallow embedding of the URL Extractor web application
(`Url Extractor Working/server.py`): the prober `fetch_status`, the
dispatcher and aggregator `check_urls`, the deduplication step of
`extract_urls`, and the two serializers `generate_csv` and
`generate_json`, together with theorems about them.
-/

namespace UrlExtractor

/-- A Python value that `fetch_status` can place in the second component of
its result: either an `int` HTTP status (from `response.status`) or one of
the strings `"error"`, `"timeout"`, `"error: ..."` produced by the three
`except` clauses. -/
inductive PyStatus where
  | int (n : Nat)
  | str (s : String)
deriving DecidableEq, Repr

/-- The ways a single `session.get(url, timeout=5)` call can terminate:
with an HTTP response carrying a status code, with an
`aiohttp.ClientError`, with an `asyncio.TimeoutError`, or with any other
exception `e` (whose `str(e)` is the carried message). -/
inductive RequestEnd where
  | response (status : Nat)
  | clientError (msg : String)
  | timeoutError
  | otherExc (msg : String)
deriving DecidableEq, Repr

/-- Embedding of `fetch_status` (server.py lines 15-26): the `try` body
returns `(url, response.status)`; `except aiohttp.ClientError` returns
`(url, "error")`; `except asyncio.TimeoutError` returns `(url, "timeout")`;
`except Exception as e` returns `(url, f"error: {str(e)}")`. -/
def fetch_status (url : String) (t : RequestEnd) : String × PyStatus :=
  match t with
  | .response n => (url, .int n)
  | .clientError _ => (url, .str "error")
  | .timeoutError => (url, .str "timeout")
  | .otherExc msg => (url, .str ("error: " ++ msg))

/-- The test `isinstance(status, int) and status >= 500` from server.py
line 54. -/
def isIntGe500 : PyStatus → Bool
  | .int n => 500 ≤ n
  | .str _ => false

/-- Embedding of the `if`/`elif` chain of server.py lines 46-57 that
classifies one probe status into a bucket name. -/
def bucketOf (status : PyStatus) : String :=
  if status = PyStatus.int 200 then "200"
  else if status = PyStatus.int 301 ∨ status = PyStatus.int 302 then "301_302"
  else if status = PyStatus.int 403 then "403"
  else if status = PyStatus.int 404 then "404"
  else if isIntGe500 status then "500+"
  else "error"

/-- The six bucket keys of `status_results`, in the order they are written
in server.py lines 36-43. -/
def sixKeys : List String := ["200", "301_302", "403", "404", "500+", "error"]

/-- A Report: the `status_results` dict, modelled as an association list
from bucket name to the list of URLs appended to that bucket (Python dicts
preserve insertion order of keys). -/
abbrev Report := List (String × List String)

/-- The initial `status_results` dict of server.py lines 36-43: all six
keys present, each mapped to an empty list. -/
def emptyReport : Report :=
  [("200", []), ("301_302", []), ("403", []), ("404", []), ("500+", []), ("error", [])]

/-- `status_results[key].append(url)`: appends `url` to the list stored
under `key`, leaving every other entry unchanged. -/
def addTo (r : Report) (key url : String) : Report :=
  r.map (fun p => if p.1 = key then (p.1, p.2 ++ [url]) else p)

/-- The categorization loop of `check_urls` (server.py lines 45-57): fold
the probe results over the initial dict, appending each URL to the bucket
selected by the `if`/`elif` chain. -/
def categorize (results : List (String × PyStatus)) : Report :=
  results.foldl (fun acc ru => addTo acc (bucketOf ru.2) ru.1) emptyReport

/-- All URL entries of a report, bucket lists concatenated in key order. -/
def bucketEntries (r : Report) : List String :=
  r.foldr (fun p acc => p.2 ++ acc) []

/-- The `Outcome` data type of the specification: `StatusCode(n)`,
`Timeout`, or `NetworkError(detail)`. -/
inductive Outcome where
  | statusCode (n : Nat)
  | timeout
  | networkError (detail : String)
deriving DecidableEq, Repr

/-- How an `Outcome` is represented by the Python code: a status code as
the `int` itself, `Timeout` as the string `"timeout"`, and
`NetworkError(detail)` as the detail string (which `fetch_status` makes
`"error"` or `"error: ..."`). -/
def encodeOutcome : Outcome → PyStatus
  | .statusCode n => .int n
  | .timeout => .str "timeout"
  | .networkError d => .str d

/-- Reading an `Outcome` back from the Python representation: an `int` is
a status code, the string `"timeout"` is `Timeout`, and any other string
is a `NetworkError` detail. -/
def decodeOutcome : PyStatus → Outcome
  | .int n => .statusCode n
  | .str s => if s = "timeout" then Outcome.timeout else Outcome.networkError s

/-- The bucketing table exactly as the specification states it:
`StatusCode(200)` to `"200"`; 301 or 302 to `"301_302"`; 403 to `"403"`;
404 to `"404"`; `n ≥ 500` to `"500+"`; every other status code, `Timeout`
and `NetworkError` to `"error"`. -/
def specBucket : Outcome → String
  | .statusCode n =>
      if n = 200 then "200"
      else if n = 301 ∨ n = 302 then "301_302"
      else if n = 403 then "403"
      else if n = 404 then "404"
      else if 500 ≤ n then "500+"
      else "error"
  | .timeout => "error"
  | .networkError _ => "error"

/-- The deduplication step `unique_urls = list(set(urls))` of
`extract_urls` (server.py lines 96-97): remove exact-string duplicates
(the order Python's `set` produces is not modelled; no claim depends on
it). -/
def unique_urls (urls : List String) : List String := urls.dedup

/-- One row per `writer.writerow` call of `generate_csv` (server.py lines
61-69): the header row, then for each bucket of the dict, in key order,
one `[url, status]` row per URL in that bucket. -/
def generate_csv (data : Report) : List (List String) :=
  ["URL", "Status"] :: data.flatMap (fun p => p.2.map (fun url => [url, p.1]))

/-- A JSON value, as far as `json.dumps(data, indent=4)` needs: strings,
arrays and objects. -/
inductive Json where
  | str (s : String)
  | arr (elems : List Json)
  | obj (fields : List (String × Json))
deriving Repr

/-- The JSON value serialized by `generate_json` (server.py lines 71-73):
the report dict becomes an object keyed by bucket name, each value the
array of URL strings of that bucket. -/
def generate_json (data : Report) : Json :=
  .obj (data.map (fun p => (p.1, .arr (p.2.map .str))))

/-- Reading a list of URL strings back from a parsed JSON array. -/
def parseStrings : List Json → Option (List String)
  | [] => some []
  | Json.str s :: rest => (parseStrings rest).map (fun l => s :: l)
  | _ => none

/-- Reading the report back from the fields of a parsed JSON object. -/
def parseFields : List (String × Json) → Option Report
  | [] => some []
  | (k, Json.arr elems) :: rest =>
      match parseStrings elems, parseFields rest with
      | some l, some r => some ((k, l) :: r)
      | _, _ => none
  | _ => none

/-- Reading a report back from a parsed JSON value: what `json.loads`
yields on the output of `generate_json`. -/
def parseReport : Json → Option Report
  | Json.obj fields => parseFields fields
  | _ => none

/-! ## Dispatcher model

`check_urls` (server.py lines 28-33) creates `asyncio.Semaphore(10)`, one
`fetch_status` task per URL, and `await asyncio.gather(*tasks)`. Each
task acquires one semaphore slot (`async with semaphore`), performs its
request, and releases the slot. We model this as a step relation on a
state holding one task slot per URL plus the semaphore counter; the
network behaviour of each URL is an oracle `env`. -/

/-- The phase a probe task is in: not yet admitted by the semaphore,
holding a semaphore slot with its request in flight, or finished with its
`fetch_status` result. -/
inductive TaskState where
  | waiting
  | inFlight
  | finished (result : String × PyStatus)
deriving DecidableEq, Repr

/-- A dispatcher state: the task slots (one per URL, in input order) and
the number of free semaphore slots. -/
structure DispatchState where
  tasks : List (String × TaskState)
  avail : Nat
deriving DecidableEq, Repr

/-- The state at the start of `check_urls`: every task waiting, and the
full `asyncio.Semaphore(10)` capacity available. -/
def initState (urls : List String) : DispatchState :=
  ⟨urls.map (fun u => (u, TaskState.waiting)), 10⟩

/-- One scheduler step: a waiting task acquires a free semaphore slot, or
an in-flight task's request terminates (in any of the ways `env` allows)
and the task records its `fetch_status` result, releasing its slot. -/
inductive DStep (env : String → RequestEnd) : DispatchState → DispatchState → Prop where
  | acquire (l₁ l₂ : List (String × TaskState)) (u : String) (a : Nat) (ha : 0 < a) :
      DStep env ⟨l₁ ++ (u, .waiting) :: l₂, a⟩ ⟨l₁ ++ (u, .inFlight) :: l₂, a - 1⟩
  | complete (l₁ l₂ : List (String × TaskState)) (u : String) (a : Nat) :
      DStep env ⟨l₁ ++ (u, .inFlight) :: l₂, a⟩
        ⟨l₁ ++ (u, .finished (fetch_status u (env u))) :: l₂, a + 1⟩

/-- States the dispatcher can be in during one `check_urls` batch. -/
def Reachable (env : String → RequestEnd) (urls : List String) (s : DispatchState) : Prop :=
  Relation.ReflTransGen (DStep env) (initState urls) s

/-- Whether a task currently holds a semaphore slot. -/
def isInFlight : TaskState → Bool
  | .inFlight => true
  | _ => false

/-- Whether a task is still waiting for a semaphore slot. -/
def isWaiting : TaskState → Bool
  | .waiting => true
  | _ => false

/-- Whether a task has resolved to a result. -/
def isFinished : TaskState → Bool
  | .finished _ => true
  | _ => false

/-- Number of probes in flight in a state. -/
def inFlightCount (s : DispatchState) : Nat := s.tasks.countP (fun t => isInFlight t.2)

/-- Number of probes still waiting for admission in a state. -/
def waitingCount (s : DispatchState) : Nat := s.tasks.countP (fun t => isWaiting t.2)

/-- Whether every probe of the batch has resolved: the condition under
which `asyncio.gather` returns. -/
def allDone (s : DispatchState) : Bool := s.tasks.all (fun t => isFinished t.2)

/-- The per-task results visible in a state (`none` for unresolved
tasks); when `allDone` holds this is the list `asyncio.gather` returns. -/
def resultsOf (s : DispatchState) : List (Option (String × PyStatus)) :=
  s.tasks.map (fun t => match t.2 with | .finished r => some r | _ => none)

/-- Dispatcher invariant: task slots stay in bijection with the input
URLs, free slots plus in-flight probes equal the semaphore capacity 10,
and a finished slot holds exactly the `fetch_status` result of its URL. -/
def DispatchInv (env : String → RequestEnd) (urls : List String) (s : DispatchState) : Prop :=
  s.tasks.map Prod.fst = urls
  ∧ s.avail + inFlightCount s = 10
  ∧ ∀ t ∈ s.tasks, ∀ r, t.2 = TaskState.finished r → r = fetch_status t.1 (env t.1)


/-! ## Helper lemmas about the aggregator -/

/-- Appending to a bucket does not change the key list of the dict. -/
theorem addTo_map_fst (r : Report) (k u : String) :
    (addTo r k u).map Prod.fst = r.map Prod.fst := by
  induction r with
  | nil => rfl
  | cons p rest ih =>
      simp only [addTo, List.map_cons] at *
      by_cases h : p.1 = k <;> simp [h, ih]

/-- The `if`/`elif` chain only ever selects one of the six keys. -/
theorem bucketOf_mem_sixKeys (s : PyStatus) : bucketOf s ∈ sixKeys := by
  unfold bucketOf sixKeys
  split_ifs <;> simp

/-- The categorization fold leaves the key list of the accumulator dict
unchanged. -/
theorem foldl_addTo_map_fst (results : List (String × PyStatus)) :
    ∀ acc : Report,
      (results.foldl (fun acc ru => addTo acc (bucketOf ru.2) ru.1) acc).map Prod.fst
        = acc.map Prod.fst := by
  induction results with
  | nil => intro acc; rfl
  | cons ru rest ih =>
      intro acc
      simp only [List.foldl_cons]
      rw [ih, addTo_map_fst]

/-- The categorized report always has exactly the six keys, in dict
insertion order. -/
theorem categorize_map_fst (results : List (String × PyStatus)) :
    (categorize results).map Prod.fst = sixKeys := by
  unfold categorize
  rw [foldl_addTo_map_fst]
  rfl

/-- Appending under a key absent from the dict is a no-op. -/
theorem addTo_eq_of_not_mem (r : Report) (k u : String) (h : k ∉ r.map Prod.fst) :
    addTo r k u = r := by
  induction r with
  | nil => rfl
  | cons p rest ih =>
      simp only [List.map_cons, List.mem_cons, not_or] at h
      simp only [addTo, List.map_cons]
      rw [if_neg (fun hh => h.1 hh.symm)]
      have := ih h.2
      simp only [addTo] at this
      rw [this]

/-- Appending one URL under a present key adds exactly that one entry to
the multiset of all bucket entries. -/
theorem bucketEntries_addTo (r : Report) (k u : String)
    (hn : (r.map Prod.fst).Nodup) (hm : k ∈ r.map Prod.fst) :
    (bucketEntries (addTo r k u)).Perm (u :: bucketEntries r) := by
  induction r with
  | nil => simp at hm
  | cons p rest ih =>
      simp only [List.map_cons, List.nodup_cons] at hn
      simp only [List.map_cons, List.mem_cons] at hm
      by_cases h : p.1 = k
      · have hrest : k ∉ rest.map Prod.fst := h ▸ hn.1
        simp only [addTo, List.map_cons, if_pos h]
        have : (rest.map (fun p => if p.1 = k then (p.1, p.2 ++ [u]) else p)) = rest := by
          have := addTo_eq_of_not_mem rest k u hrest
          simpa [addTo] using this
        rw [this]
        simp only [bucketEntries, List.foldr_cons]
        rw [List.append_assoc]
        exact List.perm_middle
      · have hm2 : k ∈ rest.map Prod.fst := by
          rcases hm with h1 | h2
          · exact absurd h1.symm h
          · exact h2
        simp only [addTo, List.map_cons, if_neg h]
        simp only [bucketEntries, List.foldr_cons] at *
        have ihr := ih hn.2 hm2
        exact (List.Perm.append_left p.2 ihr).trans List.perm_middle

/-- The categorization fold turns the input URLs into bucket entries, one
for one, up to order. -/
theorem entries_foldl_perm (results : List (String × PyStatus)) :
    ∀ acc : Report, acc.map Prod.fst = sixKeys →
      (bucketEntries (results.foldl (fun acc ru => addTo acc (bucketOf ru.2) ru.1) acc)).Perm
        (results.map Prod.fst ++ bucketEntries acc) := by
  induction results with
  | nil => intro acc _; simp
  | cons ru rest ih =>
      intro acc hk
      simp only [List.foldl_cons, List.map_cons]
      have hk2 : (addTo acc (bucketOf ru.2) ru.1).map Prod.fst = sixKeys := by
        rw [addTo_map_fst, hk]
      have hnd : (acc.map Prod.fst).Nodup := by rw [hk]; decide
      have hmem : bucketOf ru.2 ∈ acc.map Prod.fst := by
        rw [hk]; exact bucketOf_mem_sixKeys ru.2
      have addPerm := bucketEntries_addTo acc (bucketOf ru.2) ru.1 hnd hmem
      have := ih (addTo acc (bucketOf ru.2) ru.1) hk2
      exact this.trans ((List.Perm.append_left (rest.map Prod.fst) addPerm).trans
        List.perm_middle)

/-- The bucket entries of the categorized report are a permutation of the
input URLs. -/
theorem categorize_entries_perm (results : List (String × PyStatus)) :
    (bucketEntries (categorize results)).Perm (results.map Prod.fst) := by
  have h := entries_foldl_perm results emptyReport (by decide)
  simpa [categorize, bucketEntries, emptyReport] using h

/-- Total number of bucket entries equals the sum of the bucket sizes. -/
theorem bucketEntries_length (r : Report) :
    (bucketEntries r).length = (r.map (fun p => p.2.length)).sum := by
  induction r with
  | nil => rfl
  | cons p rest ih =>
      simp only [bucketEntries] at ih
      simp [bucketEntries, List.foldr_cons, ih]

/-- Occurrences of a URL among all bucket entries, bucket by bucket. -/
theorem bucketEntries_count (r : Report) (u : String) :
    (bucketEntries r).count u = (r.map (fun p => p.2.count u)).sum := by
  induction r with
  | nil => rfl
  | cons p rest ih =>
      simp only [bucketEntries] at ih
      simp [bucketEntries, List.foldr_cons, List.count_append, ih]

/-- A URL with no occurrence in any bucket is a member of no bucket. -/
theorem countP_mem_eq_zero_of_sum (r : Report) (u : String)
    (h : (r.map (fun p => p.2.count u)).sum = 0) :
    r.countP (fun p => decide (u ∈ p.2)) = 0 := by
  induction r with
  | nil => rfl
  | cons p rest ih =>
      simp only [List.map_cons, List.sum_cons] at h
      have h1 : p.2.count u = 0 := by omega
      have h2 : (rest.map (fun p => p.2.count u)).sum = 0 := by omega
      have hnot : u ∉ p.2 := List.count_eq_zero.mp h1
      rw [List.countP_cons]
      simp [hnot, ih h2]

/-- A URL with exactly one occurrence among all bucket entries is a
member of exactly one bucket. -/
theorem countP_mem_eq_one_of_sum (r : Report) (u : String)
    (h : (r.map (fun p => p.2.count u)).sum = 1) :
    r.countP (fun p => decide (u ∈ p.2)) = 1 := by
  induction r with
  | nil => simp at h
  | cons p rest ih =>
      simp only [List.map_cons, List.sum_cons] at h
      by_cases hz : p.2.count u = 0
      · have h2 : (rest.map (fun p => p.2.count u)).sum = 1 := by omega
        have hnot : u ∉ p.2 := List.count_eq_zero.mp hz
        rw [List.countP_cons]
        simp [hnot, ih h2]
      · have h1 : p.2.count u = 1 := by omega
        have h2 : (rest.map (fun p => p.2.count u)).sum = 0 := by omega
        have hmem : u ∈ p.2 := List.count_pos_iff.mp (by omega)
        rw [List.countP_cons]
        simp [hmem, countP_mem_eq_zero_of_sum rest u h2]

/-! ## Helper lemmas about the prober -/

/-- `fetch_status` always reports the URL it was given. -/
theorem fetch_status_fst (url : String) (t : RequestEnd) :
    (fetch_status url t).1 = url := by
  cases t <;> rfl

/-- An `"error: ..."` message is never the string `"timeout"`. -/
theorem err_append_ne_timeout (m : String) : ("error: " ++ m) ≠ "timeout" := by
  intro h
  have hd : ("error: " ++ m).data = "timeout".data := by rw [h]
  rw [String.data_append] at hd
  rw [show ("error: ").data = ['e', 'r', 'r', 'o', 'r', ':', ' '] from rfl,
    show ("timeout").data = ['t', 'i', 'm', 'e', 'o', 'u', 't'] from rfl] at hd
  simp at hd

/-- An `"error: ..."` message is never empty. -/
theorem err_append_ne_empty (m : String) : ("error: " ++ m) ≠ "" := by
  intro h
  have hd : ("error: " ++ m).data = "".data := by rw [h]
  rw [String.data_append] at hd
  rw [show ("error: ").data = ['e', 'r', 'r', 'o', 'r', ':', ' '] from rfl,
    show ("").data = ([] : List Char) from rfl] at hd
  simp at hd

/-- `parseStrings` inverts serialization of a list of URL strings. -/
theorem parseStrings_map_str (l : List String) :
    parseStrings (l.map Json.str) = some l := by
  induction l with
  | nil => rfl
  | cons s rest ih => simp [parseStrings, ih]


/-! ## Dispatcher lemmas -/

/-- The invariant holds at the start of a batch. -/
theorem inv_init (env : String → RequestEnd) (urls : List String) :
    DispatchInv env urls (initState urls) := by
  refine ⟨by simp [initState, Function.comp_def], by simp [initState, inFlightCount, isInFlight], ?_⟩
  intro t ht r hr
  simp only [initState, List.mem_map] at ht
  obtain ⟨u, _, rfl⟩ := ht
  simp at hr

/-- Each scheduler step preserves the invariant. -/
theorem inv_step {env : String → RequestEnd} {urls : List String} {s s' : DispatchState}
    (hinv : DispatchInv env urls s) (hstep : DStep env s s') : DispatchInv env urls s' := by
  obtain ⟨h1, h2, h3⟩ := hinv
  cases hstep with
  | acquire l₁ l₂ u a ha =>
      refine ⟨?_, ?_, ?_⟩
      · simpa using h1
      · simp [inFlightCount, List.countP_append, List.countP_cons, isInFlight] at h2 ⊢
        omega
      · intro t ht r hr
        simp only [List.mem_append, List.mem_cons] at ht
        rcases ht with h | h | h
        · exact h3 t (List.mem_append_left _ h) r hr
        · subst h; simp at hr
        · exact h3 t (List.mem_append_right _ (List.mem_cons_of_mem _ h)) r hr
  | complete l₁ l₂ u a =>
      refine ⟨?_, ?_, ?_⟩
      · simpa using h1
      · simp [inFlightCount, List.countP_append, List.countP_cons, isInFlight] at h2 ⊢
        omega
      · intro t ht r hr
        simp only [List.mem_append, List.mem_cons] at ht
        rcases ht with h | h | h
        · exact h3 t (List.mem_append_left _ h) r hr
        · subst h
          simp only [TaskState.finished.injEq] at hr
          simpa using hr.symm
        · exact h3 t (List.mem_append_right _ (List.mem_cons_of_mem _ h)) r hr

/-- The invariant holds in every reachable state. -/
theorem reachable_inv {env : String → RequestEnd} {urls : List String} {s : DispatchState}
    (h : Reachable env urls s) : DispatchInv env urls s := by
  induction h with
  | refl => exact inv_init env urls
  | tail _ hstep ih => exact inv_step ih hstep

/-- Once every probe has resolved, the gathered results are exactly one
`fetch_status` result per input URL, in input order. -/
theorem results_of_allDone {env : String → RequestEnd} {urls : List String}
    {s : DispatchState} (hinv : DispatchInv env urls s) (hd : allDone s = true) :
    resultsOf s = urls.map (fun u => some (fetch_status u (env u))) := by
  obtain ⟨h1, _, h3⟩ := hinv
  have hall : ∀ t ∈ s.tasks, isFinished t.2 = true := by
    simpa [allDone, List.all_eq_true] using hd
  have hcong : ∀ t ∈ s.tasks,
      (match t.2 with | TaskState.finished r => some r | _ => none)
        = some (fetch_status t.1 (env t.1)) := by
    intro t ht
    have hfin := hall t ht
    cases hts : t.2 with
    | finished r =>
        have := h3 t ht r hts
        simp [this]
    | waiting => rw [hts] at hfin; simp [isFinished] at hfin
    | inFlight => rw [hts] at hfin; simp [isFinished] at hfin
  calc resultsOf s
      = s.tasks.map (fun t => some (fetch_status t.1 (env t.1))) :=
        List.map_congr_left hcong
    _ = (s.tasks.map Prod.fst).map (fun u => some (fetch_status u (env u))) := by
        rw [List.map_map]; simp [Function.comp_def]
    _ = urls.map (fun u => some (fetch_status u (env u))) := by rw [h1]

/-- From any invariant state the batch can run to completion, whatever
outcome (success, timeout or failure) `env` assigns to each URL. -/
theorem exists_allDone_of_inv (env : String → RequestEnd) (urls : List String) :
    ∀ n s, DispatchInv env urls s → 2 * waitingCount s + inFlightCount s ≤ n →
      ∃ t, Relation.ReflTransGen (DStep env) s t ∧ allDone t = true := by
  intro n
  induction n with
  | zero =>
      intro s hinv hm
      have hw : waitingCount s = 0 := by omega
      have hf : inFlightCount s = 0 := by omega
      refine ⟨s, Relation.ReflTransGen.refl, ?_⟩
      simp only [waitingCount, List.countP_eq_zero] at hw
      simp only [inFlightCount, List.countP_eq_zero] at hf
      simp only [allDone, List.all_eq_true]
      intro t ht
      have h1 := hw t ht
      have h2 := hf t ht
      cases hts : t.2 with
      | finished r => simp [isFinished]
      | waiting => rw [hts] at h1; simp [isWaiting] at h1
      | inFlight => rw [hts] at h2; simp [isInFlight] at h2
  | succ n ih =>
      intro s hinv hm
      by_cases hf : inFlightCount s = 0
      · by_cases hw : waitingCount s = 0
        · refine ⟨s, Relation.ReflTransGen.refl, ?_⟩
          simp only [waitingCount, List.countP_eq_zero] at hw
          simp only [inFlightCount, List.countP_eq_zero] at hf
          simp only [allDone, List.all_eq_true]
          intro t ht
          have h1 := hw t ht
          have h2 := hf t ht
          cases hts : t.2 with
          | finished r => simp [isFinished]
          | waiting => rw [hts] at h1; simp [isWaiting] at h1
          | inFlight => rw [hts] at h2; simp [isInFlight] at h2
        · -- pick a waiting task and acquire a slot
          have hpos : 0 < s.tasks.countP (fun t => isWaiting t.2) := by
            simp only [waitingCount] at hw; omega
          obtain ⟨x, hx, hpx⟩ := List.countP_pos_iff.mp hpos
          obtain ⟨l₁, l₂, hsplit⟩ := List.append_of_mem hx
          have hxw : x.2 = TaskState.waiting := by
            cases hts : x.2 with
            | waiting => rfl
            | inFlight => rw [hts] at hpx; simp [isWaiting] at hpx
            | finished r => rw [hts] at hpx; simp [isWaiting] at hpx
          obtain ⟨tasks, avail⟩ := s
          simp only at hsplit
          have hx2 : x = (x.1, TaskState.waiting) := by
            rw [← hxw]
          have havail : 0 < avail := by
            obtain ⟨_, h2, _⟩ := hinv
            simp only [inFlightCount] at hf h2
            omega
          have hstep : DStep env ⟨tasks, avail⟩
              ⟨l₁ ++ (x.1, TaskState.inFlight) :: l₂, avail - 1⟩ := by
            rw [hsplit, hx2]
            exact DStep.acquire l₁ l₂ x.1 avail havail
          have hinv2 := inv_step hinv hstep
          have hmeasure : 2 * waitingCount ⟨l₁ ++ (x.1, TaskState.inFlight) :: l₂, avail - 1⟩
              + inFlightCount ⟨l₁ ++ (x.1, TaskState.inFlight) :: l₂, avail - 1⟩ ≤ n := by
            have hold : waitingCount ⟨tasks, avail⟩
                = l₁.countP (fun t => isWaiting t.2) + l₂.countP (fun t => isWaiting t.2) + 1 := by
              rw [hsplit, hx2]
              simp [waitingCount, List.countP_append, List.countP_cons, isWaiting]
              omega
            have holdf : inFlightCount ⟨tasks, avail⟩
                = l₁.countP (fun t => isInFlight t.2) + l₂.countP (fun t => isInFlight t.2) := by
              rw [hsplit, hx2]
              simp [inFlightCount, List.countP_append, List.countP_cons, isInFlight]
            have hneww : waitingCount ⟨l₁ ++ (x.1, TaskState.inFlight) :: l₂, avail - 1⟩
                = l₁.countP (fun t => isWaiting t.2) + l₂.countP (fun t => isWaiting t.2) := by
              simp [waitingCount, List.countP_append, List.countP_cons, isWaiting]
            have hnewf : inFlightCount ⟨l₁ ++ (x.1, TaskState.inFlight) :: l₂, avail - 1⟩
                = l₁.countP (fun t => isInFlight t.2) + l₂.countP (fun t => isInFlight t.2) + 1 := by
              simp [inFlightCount, List.countP_append, List.countP_cons, isInFlight]
              omega
            omega
          obtain ⟨t, ht, hd⟩ := ih _ hinv2 hmeasure
          exact ⟨t, Relation.ReflTransGen.head hstep ht, hd⟩
      · -- pick an in-flight task and complete it
        have hpos : 0 < s.tasks.countP (fun t => isInFlight t.2) := by
          simp only [inFlightCount] at hf; omega
        obtain ⟨x, hx, hpx⟩ := List.countP_pos_iff.mp hpos
        obtain ⟨l₁, l₂, hsplit⟩ := List.append_of_mem hx
        have hxw : x.2 = TaskState.inFlight := by
          cases hts : x.2 with
          | inFlight => rfl
          | waiting => rw [hts] at hpx; simp [isInFlight] at hpx
          | finished r => rw [hts] at hpx; simp [isInFlight] at hpx
        obtain ⟨tasks, avail⟩ := s
        simp only at hsplit
        have hx2 : x = (x.1, TaskState.inFlight) := by
          rw [← hxw]
        have hstep : DStep env ⟨tasks, avail⟩
            ⟨l₁ ++ (x.1, TaskState.finished (fetch_status x.1 (env x.1))) :: l₂, avail + 1⟩ := by
          rw [hsplit, hx2]
          exact DStep.complete l₁ l₂ x.1 avail
        have hinv2 := inv_step hinv hstep
        have hmeasure : 2 * waitingCount ⟨l₁ ++ (x.1, TaskState.finished (fetch_status x.1 (env x.1))) :: l₂, avail + 1⟩
            + inFlightCount ⟨l₁ ++ (x.1, TaskState.finished (fetch_status x.1 (env x.1))) :: l₂, avail + 1⟩ ≤ n := by
          have hold : inFlightCount ⟨tasks, avail⟩
              = l₁.countP (fun t => isInFlight t.2) + l₂.countP (fun t => isInFlight t.2) + 1 := by
            rw [hsplit, hx2]
            simp [inFlightCount, List.countP_append, List.countP_cons, isInFlight]
            omega
          have holdw : waitingCount ⟨tasks, avail⟩
              = l₁.countP (fun t => isWaiting t.2) + l₂.countP (fun t => isWaiting t.2) := by
            rw [hsplit, hx2]
            simp [waitingCount, List.countP_append, List.countP_cons, isWaiting]
          have hneww : waitingCount ⟨l₁ ++ (x.1, TaskState.finished (fetch_status x.1 (env x.1))) :: l₂, avail + 1⟩
              = l₁.countP (fun t => isWaiting t.2) + l₂.countP (fun t => isWaiting t.2) := by
            simp [waitingCount, List.countP_append, List.countP_cons, isWaiting]
          have hnewf : inFlightCount ⟨l₁ ++ (x.1, TaskState.finished (fetch_status x.1 (env x.1))) :: l₂, avail + 1⟩
              = l₁.countP (fun t => isInFlight t.2) + l₂.countP (fun t => isInFlight t.2) := by
            simp [inFlightCount, List.countP_append, List.countP_cons, isInFlight]
          omega
        obtain ⟨t, ht, hd⟩ := ih _ hinv2 hmeasure
        exact ⟨t, Relation.ReflTransGen.head hstep ht, hd⟩


/-! ## Claim theorems -/

/-- C1: every `ProbeResult` outcome is assigned to exactly the bucket of
the fixed table: `StatusCode(200)` to `"200"`; 301 or 302 to `"301_302"`;
403 to `"403"`; 404 to `"404"`; `n ≥ 500` to `"500+"`; every other status
code, `Timeout` and `NetworkError` to `"error"`. The code's `if`/`elif`
chain agrees with the specification's table on every outcome. -/
theorem bucketing_matches_spec_table (o : Outcome) :
    bucketOf (encodeOutcome o) = specBucket o := by
  cases o with
  | statusCode n =>
      simp only [encodeOutcome, bucketOf, specBucket, isIntGe500, PyStatus.int.injEq,
        decide_eq_true_eq]
  | timeout => decide
  | networkError d =>
      simp [encodeOutcome, bucketOf, specBucket, isIntGe500]

/-- C2: for ProbeResults with distinct URLs, the six buckets of the
report hold exactly as many URL entries as there were inputs, and each
input URL is a member of exactly one bucket: nothing dropped, nothing
duplicated across buckets. -/
theorem report_partitions_inputs (results : List (String × PyStatus))
    (h : (results.map Prod.fst).Nodup) :
    ((categorize results).map (fun p => p.2.length)).sum = results.length
    ∧ ∀ url ∈ results.map Prod.fst,
        (categorize results).countP (fun p => decide (url ∈ p.2)) = 1 := by
  have hperm := categorize_entries_perm results
  constructor
  · rw [← bucketEntries_length, hperm.length_eq, List.length_map]
  · intro url hmem
    have hcnt : (results.map Prod.fst).count url = 1 :=
      List.count_eq_one_of_mem h hmem
    have : (bucketEntries (categorize results)).count url = 1 := by
      rw [hperm.count_eq]; exact hcnt
    rw [bucketEntries_count] at this
    exact countP_mem_eq_one_of_sum _ url this

/-- Witness for C2 at a concrete two-URL batch. -/
theorem report_partitions_inputs_witness :
    ((categorize [("http://a", PyStatus.int 200), ("http://b", PyStatus.str "timeout")]).map
        (fun p => p.2.length)).sum = 2
    ∧ (categorize [("http://a", PyStatus.int 200), ("http://b", PyStatus.str "timeout")]).countP
        (fun p => decide ("http://a" ∈ p.2)) = 1 :=
  ⟨(report_partitions_inputs
      [("http://a", PyStatus.int 200), ("http://b", PyStatus.str "timeout")] (by decide)).1,
   (report_partitions_inputs
      [("http://a", PyStatus.int 200), ("http://b", PyStatus.str "timeout")] (by decide)).2
      "http://a" (by decide)⟩

/-- C3: for every oracle of network behaviours and every URL list, the
dispatcher never has more than 10 probes in flight in any reachable
state; whenever it has gathered all results they are exactly one
`fetch_status` result per input URL; and the batch can always run to
completion, regardless of which probes fail. -/
theorem dispatcher_bounded_complete (env : String → RequestEnd) (urls : List String) :
    (∀ s, Reachable env urls s → inFlightCount s ≤ 10)
    ∧ (∀ s, Reachable env urls s → allDone s = true →
        resultsOf s = urls.map (fun u => some (fetch_status u (env u))))
    ∧ (∃ s, Reachable env urls s ∧ allDone s = true) := by
  refine ⟨?_, ?_, ?_⟩
  · intro s h
    obtain ⟨_, h2, _⟩ := reachable_inv h
    omega
  · intro s h hd
    exact results_of_allDone (reachable_inv h) hd
  · obtain ⟨t, ht, hd⟩ := exists_allDone_of_inv env urls
      (2 * waitingCount (initState urls) + inFlightCount (initState urls)) (initState urls)
      (inv_init env urls) le_rfl
    exact ⟨t, ht, hd⟩

/-- Witness for C3: a concrete one-URL batch, stepped through acquire and
then completion, gathers exactly its one probe result. -/
theorem dispatcher_bounded_complete_witness :
    resultsOf ⟨[("http://a", TaskState.finished ("http://a", PyStatus.int 200))], 10⟩
      = [some ("http://a", PyStatus.int 200)] :=
  (dispatcher_bounded_complete (fun _ => RequestEnd.response 200) ["http://a"]).2.1
    ⟨[("http://a", TaskState.finished ("http://a", PyStatus.int 200))], 10⟩
    (Relation.ReflTransGen.head (DStep.acquire [] [] "http://a" 10 (by decide))
      (Relation.ReflTransGen.head (DStep.complete [] [] "http://a" 9)
        Relation.ReflTransGen.refl))
    rfl

/-- C4: however the underlying request terminates (response, timeout, or
any raised failure), `fetch_status` returns the probed URL paired with a
value denoting an `Outcome` (`StatusCode`, `Timeout` or `NetworkError`);
no termination mode escapes the `try`/`except` chain. -/
theorem fetch_status_always_outcome (url : String) (t : RequestEnd) :
    (fetch_status url t).1 = url ∧
    decodeOutcome (fetch_status url t).2 =
      (match t with
       | RequestEnd.response n => Outcome.statusCode n
       | RequestEnd.clientError _ => Outcome.networkError "error"
       | RequestEnd.timeoutError => Outcome.timeout
       | RequestEnd.otherExc m => Outcome.networkError ("error: " ++ m)) := by
  cases t with
  | response n => exact ⟨rfl, rfl⟩
  | clientError m => exact ⟨rfl, rfl⟩
  | timeoutError => exact ⟨rfl, rfl⟩
  | otherExc m =>
      refine ⟨rfl, ?_⟩
      simp only [fetch_status, decodeOutcome]
      rw [if_neg (err_append_ne_timeout m)]

/-- C5: a request that exceeds the per-request timeout yields the
`Timeout` outcome, not a status code and not a `NetworkError`. -/
theorem fetch_status_timeout_outcome (url : String) :
    (fetch_status url RequestEnd.timeoutError).2 = PyStatus.str "timeout"
    ∧ decodeOutcome (fetch_status url RequestEnd.timeoutError).2 = Outcome.timeout :=
  ⟨rfl, rfl⟩

/-- C6: a transport-level failure other than a timeout (an
`aiohttp.ClientError` or any other exception) yields
`NetworkError(detail)` with a non-empty detail string. -/
theorem fetch_status_network_error_detail (url msg : String) :
    (∃ d, decodeOutcome (fetch_status url (RequestEnd.clientError msg)).2
        = Outcome.networkError d ∧ d ≠ "")
    ∧ (∃ d, decodeOutcome (fetch_status url (RequestEnd.otherExc msg)).2
        = Outcome.networkError d ∧ d ≠ "") := by
  constructor
  · exact ⟨"error", rfl, by decide⟩
  · refine ⟨"error: " ++ msg, ?_, err_append_ne_empty msg⟩
    simp only [fetch_status, decodeOutcome]
    rw [if_neg (err_append_ne_timeout msg)]

/-- C7: the report always carries exactly the six bucket keys `"200"`,
`"301_302"`, `"403"`, `"404"`, `"500+"`, `"error"`, and for zero input
URLs each of the six keys maps to an empty list. -/
theorem report_has_six_keys :
    (∀ results, (categorize results).map Prod.fst = sixKeys)
    ∧ categorize []
        = [("200", []), ("301_302", []), ("403", []), ("404", []), ("500+", []), ("error", [])] :=
  ⟨categorize_map_fst, rfl⟩

/-- C8: the URL list is deduplicated by exact string equality — the
deduplicated list has no duplicates and keeps exactly the original
members, so URLs differing in case, trailing slash or query string stay
distinct — and each URL surviving deduplication is probed exactly once in
the batch. -/
theorem dedup_exact_equality_probe_once (urls : List String)
    (env : String → RequestEnd) (u : String) (hu : u ∈ urls) :
    (unique_urls urls).Nodup
    ∧ (∀ v, v ∈ unique_urls urls ↔ v ∈ urls)
    ∧ ((unique_urls urls).map (fun x => (fetch_status x (env x)).1)).count u = 1 := by
  refine ⟨List.nodup_dedup urls, fun v => List.mem_dedup, ?_⟩
  have hmap : (unique_urls urls).map (fun x => (fetch_status x (env x)).1)
      = unique_urls urls := by
    have h1 := List.map_congr_left (l := unique_urls urls)
      (fun a _ => fetch_status_fst a (env a))
    simpa using h1
  rw [hmap]
  exact List.count_eq_one_of_mem (List.nodup_dedup urls) (List.mem_dedup.mpr hu)

/-- Witness for C8: `"http://A"` and `"http://a"` stay distinct, and the
duplicated `"http://a"` is probed exactly once. -/
theorem dedup_exact_equality_probe_once_witness :
    (unique_urls ["http://A", "http://a", "http://a"]).Nodup
    ∧ ((unique_urls ["http://A", "http://a", "http://a"]).map
        (fun x => (fetch_status x ((fun _ => RequestEnd.timeoutError) x)).1)).count
        "http://a" = 1 :=
  ⟨(dedup_exact_equality_probe_once ["http://A", "http://a", "http://a"]
      (fun _ => RequestEnd.timeoutError) "http://a" (by decide)).1,
   (dedup_exact_equality_probe_once ["http://A", "http://a", "http://a"]
      (fun _ => RequestEnd.timeoutError) "http://a" (by decide)).2.2⟩

/-- C9: the CSV rendering is the header row `URL,Status` followed by one
data row per URL entry of the report — so the number of data rows equals
the total number of URLs across buckets — and every data row lists a URL
together with the name of the bucket containing it. -/
theorem generate_csv_header_and_rows (data : Report) :
    (generate_csv data).length = 1 + (data.map (fun p => p.2.length)).sum
    ∧ (generate_csv data).head? = some ["URL", "Status"]
    ∧ ∀ row ∈ (generate_csv data).drop 1,
        ∃ url status, row = [url, status] ∧ ∃ p, p ∈ data ∧ p.1 = status ∧ url ∈ p.2 := by
  refine ⟨?_, rfl, ?_⟩
  · simp [generate_csv, List.length_flatMap, Nat.add_comm, Function.comp_def]
  · intro row hrow
    simp only [generate_csv, List.drop_succ_cons, List.drop_zero, List.mem_flatMap,
      List.mem_map] at hrow
    obtain ⟨p, hp, url, hurl, rfl⟩ := hrow
    exact ⟨url, p.1, rfl, p, hp, rfl, hurl⟩

/-- Witness for C9 at a one-URL report. -/
theorem generate_csv_header_and_rows_witness :
    ∃ url status, (["http://a", "200"] : List String) = [url, status]
      ∧ ∃ p, p ∈ ([("200", ["http://a"])] : Report) ∧ p.1 = status ∧ url ∈ p.2 :=
  (generate_csv_header_and_rows [("200", ["http://a"])]).2.2
    ["http://a", "200"] (by decide)

/-- C10: parsing the JSON value produced by the JSON serializer yields
back exactly the report that was serialized. -/
theorem generate_json_roundtrip (data : Report) :
    parseReport (generate_json data) = some data := by
  simp only [generate_json, parseReport]
  induction data with
  | nil => rfl
  | cons p rest ih =>
      simp [parseFields, parseStrings_map_str, ih]


end UrlExtractor
